import Mathlib

/-!
Verification of the friedrich hyperparameter-optimization core:
the growable containers of `src/algebra/extendable_matrix.rs` and the
ADAM optimizer of `src/gaussian_process/optimizer.rs`.

Container code is embedded over an arbitrary element type `α` (the source
fixes `f64`); the `nanv` argument models the `std::f64::NAN` fill element.
Optimizer arithmetic over `f64` is embedded as exact real arithmetic.
-/

namespace Friedrich

/-! ## Containers (src/algebra/extendable_matrix.rs) -/

/-- Models nalgebra `data.index_mut((start.., ..)).copy_from(&src)` for a
vector: writes `src` over the rows from `start` to the end of `data`.
nalgebra's `copy_from` asserts that both slices have exactly the same
shape and the indexing asserts `start` is in bounds; a violated assertion
is a panic, modelled as `none`. -/
def copyTail {α : Type} (data : List α) (start : ℕ) (src : List α) : Option (List α) :=
  if start ≤ data.length ∧ data.length - start = src.length then
    some (data.take start ++ src)
  else none

/-- Models nalgebra `data.index_mut((..stop, ..)).copy_from(&src)` for a
vector: writes `src` over the rows from `0` to `stop`.  Panics (`none`)
unless `stop` is in bounds and `src` has exactly `stop` rows. -/
def copyHead {α : Type} (data : List α) (stop : ℕ) (src : List α) : Option (List α) :=
  if stop ≤ data.length ∧ stop = src.length then
    some (src ++ data.drop stop)
  else none

/-- `EVector` from src/algebra/extendable_matrix.rs: a backing store
`data` (its length is the capacity) and the logical row count `nrows`. -/
structure EVector (α : Type) where
  data : List α
  nrows : ℕ
deriving DecidableEq

/-- `EVector::new`: capacity and logical size both equal the initial data. -/
def EVector.new {α : Type} (data : List α) : EVector α :=
  ⟨data, data.length⟩

/-- `EVector::add_rows`: grows the store to
`max(required_size, 3*capacity/2)` when needed (filling with `nanv` and
copying the logical prefix over), then copies the appended block over
`data[nrows..]` and bumps `nrows`.  Each `copy_from` is shape-checked as
in nalgebra, so the result is `none` exactly when the source would panic. -/
def EVector.addRows {α : Type} (nanv : α) (v : EVector α) (rows : List α) : Option (EVector α) :=
  let capacity := v.data.length
  let requiredSize := v.nrows + rows.length
  let dataOpt : Option (List α) :=
    if requiredSize > capacity then
      let growedCapacity := 3 * capacity / 2
      let newCapacity := max requiredSize growedCapacity
      copyHead (List.replicate newCapacity nanv) v.nrows v.data
    else
      some v.data
  dataOpt.bind fun d =>
    (copyTail d v.nrows rows).map fun d2 => ⟨d2, v.nrows + rows.length⟩

/-- `EVector::assign`: `assert_eq!(rows.nrows(), self.nrows)` then copy
`rows` over `data[..rows.len()]`; `nrows` is left unchanged. -/
def EVector.assign {α : Type} (v : EVector α) (rows : List α) : Option (EVector α) :=
  if rows.length = v.nrows then
    (copyHead v.data rows.length rows).map fun d => ⟨d, v.nrows⟩
  else none

/-- `to_vslice`: the read-only view of exactly the logical prefix. -/
def EVector.toVslice {α : Type} (v : EVector α) : List α :=
  v.data.take v.nrows

/-- Matrix variant of `copyTail`; the shape check also compares column
counts: every row of `src` must have `ncols` entries. -/
def mcopyTail {α : Type} (data : List (List α)) (ncols start : ℕ) (src : List (List α)) :
    Option (List (List α)) :=
  if start ≤ data.length ∧ data.length - start = src.length ∧ ∀ r ∈ src, r.length = ncols then
    some (data.take start ++ src)
  else none

/-- Matrix variant of `copyHead`, with the column-count shape check. -/
def mcopyHead {α : Type} (data : List (List α)) (ncols stop : ℕ) (src : List (List α)) :
    Option (List (List α)) :=
  if stop ≤ data.length ∧ stop = src.length ∧ ∀ r ∈ src, r.length = ncols then
    some (src ++ data.drop stop)
  else none

/-- `EMatrix` from src/algebra/extendable_matrix.rs: backing row store
(its length is the capacity), the column count, and the logical row count. -/
structure EMatrix (α : Type) where
  data : List (List α)
  ncols : ℕ
  nrows : ℕ
deriving DecidableEq

/-- `EMatrix::new`. -/
def EMatrix.new {α : Type} (data : List (List α)) (ncols : ℕ) : EMatrix α :=
  ⟨data, ncols, data.length⟩

/-- `EMatrix::add_rows`, mirroring `EVector::add_rows` row-wise; the grown
store is `DMatrix::from_element(new_capacity, ncols, NAN)`. -/
def EMatrix.addRows {α : Type} (nanv : α) (m : EMatrix α) (rows : List (List α)) :
    Option (EMatrix α) :=
  let capacity := m.data.length
  let requiredSize := m.nrows + rows.length
  let dataOpt : Option (List (List α)) :=
    if requiredSize > capacity then
      let growedCapacity := 3 * capacity / 2
      let newCapacity := max requiredSize growedCapacity
      mcopyHead (List.replicate newCapacity (List.replicate m.ncols nanv)) m.ncols m.nrows m.data
    else
      some m.data
  dataOpt.bind fun d =>
    (mcopyTail d m.ncols m.nrows rows).map fun d2 => ⟨d2, m.ncols, m.nrows + rows.length⟩

/-- `to_mslice`: the read-only view of exactly the logical prefix. -/
def EMatrix.toMslice {α : Type} (m : EMatrix α) : List (List α) :=
  m.data.take m.nrows

/-! ## Gradient evaluator (src/gaussian_process/optimizer.rs) -/

/-- `alpha.dot(&col) * alpha_col` summed over the columns of `Dp`, as in
the `data_fit` fold of `gradient_marginal_likelihood`. -/
noncomputable def dataFitSum {n : ℕ} (Dp : Matrix (Fin n) (Fin n) ℝ) (alpha : Fin n → ℝ) : ℝ :=
  ∑ j, (∑ i, alpha i * Dp i j) * alpha j

/-- `c.tr_dot(&d)` summed over paired rows of `K⁻¹` and columns of `Dp`,
as in the `complexity_penalty` fold. -/
noncomputable def complexitySum {n : ℕ} (covInv Dp : Matrix (Fin n) (Fin n) ℝ) : ℝ :=
  ∑ i, ∑ k, covInv i k * Dp k i

/-- `gradient_marginal_likelihood`: one entry `(data_fit − complexity)/2`
per covariance-derivative matrix, then the noise entry
`noise * (alpha.dot(&alpha) − cov_inv.trace())`.  `covInv` is the inverse
obtained from the Cholesky factor and `y` the training outputs. -/
noncomputable def gradientMarginalLikelihood {n : ℕ} (covInv : Matrix (Fin n) (Fin n) ℝ)
    (y : Fin n → ℝ) (mats : List (Matrix (Fin n) (Fin n) ℝ)) (noise : ℝ) : List ℝ :=
  let alpha := covInv.mulVec y
  mats.map (fun Dp => (dataFitSum Dp alpha - complexitySum covInv Dp) / 2)
    ++ [noise * ((∑ i, alpha i * alpha i) - ∑ i, covInv i i)]

/-- `scaled_gradient_marginal_likelihood`: the scale
`training_output.dot(&alpha) / n` and one entry
`(data_fit/scale − complexity)/2` per derivative matrix; the noise entry
is absent (commented out in the source). -/
noncomputable def scaledGradientMarginalLikelihood {n : ℕ} (covInv : Matrix (Fin n) (Fin n) ℝ)
    (y : Fin n → ℝ) (mats : List (Matrix (Fin n) (Fin n) ℝ)) : ℝ × List ℝ :=
  let alpha := covInv.mulVec y
  let scale := (∑ i, y i * alpha i) / (n : ℝ)
  (scale, mats.map (fun Dp => (dataFitSum Dp alpha / scale - complexitySum covInv Dp) / 2))

/-! ## ADAM optimizer (src/gaussian_process/optimizer.rs) -/

/-- `let beta1 = 0.9`. -/
noncomputable def beta1 : ℝ := 0.9

/-- `let beta2 = 0.999`. -/
noncomputable def beta2 : ℝ := 0.999

/-- `let epsilon = 1e-8`. -/
noncomputable def epsilon : ℝ := 1e-8

/-- `let learning_rate = 0.1`. -/
noncomputable def learningRate : ℝ := 0.1

/-- `mean_grad[p] = beta1 * mean_grad[p] + (1. - beta1) * gradients[p]`. -/
noncomputable def adamMean (mean grads : List ℝ) : List ℝ :=
  List.zipWith (fun m g => beta1 * m + (1 - beta1) * g) mean grads

/-- `var_grad[p] = beta2 * var_grad[p] + (1. - beta2) * gradients[p].powi(2)`. -/
noncomputable def adamVar (varGrad grads : List ℝ) : List ℝ :=
  List.zipWith (fun v g => beta2 * v + (1 - beta2) * g ^ 2) varGrad grads

/-- Per-parameter step, from the updated moments:
`learning_rate * bias_corrected_mean / (bias_corrected_variance.sqrt() + epsilon)`. -/
noncomputable def adamDelta (i : ℕ) (mean varGrad : List ℝ) : List ℝ :=
  List.zipWith
    (fun m v =>
      learningRate * (m / (1 - beta1 ^ i)) / (Real.sqrt (v / (1 - beta2 ^ i)) + epsilon))
    mean varGrad

/-- `parameters[p] *= 1. + delta`. -/
noncomputable def adamParams (params deltas : List ℝ) : List ℝ :=
  List.zipWith (fun p d => p * (1 + d)) params deltas

/-- `had_significant_progress |= delta.abs() > convergence_fraction`,
folded over the parameter loop starting from `false`. -/
def hadSignificantProgress (cf : ℝ) (deltas : List ℝ) : Prop :=
  deltas.foldl (fun acc d => acc ∨ |d| > cf) False

/-- `if let Some(noise_grad) = gradients.last_mut() { *noise_grad *= noise }`. -/
def mulLast : List ℝ → ℝ → List ℝ
  | [], _ => []
  | [x], c => [x * c]
  | x :: y :: t, c => x :: mulLast (y :: t) c

/-- Modelled from the spec: the external collaborators of §6, whose
sources are not under src/.  `y` is the training-output view,
`gradMats` is `make_gradient_covariance_matrices` (training inputs baked
in, one derivative matrix per kernel parameter, in parameter order),
`covInvOf` is the inverse of the Cholesky factor rebuilt by
`make_cholesky_cov_matrix` for given kernel parameters and noise (jitter
baked in), and `rescaleK` is the parameter vector re-read from the kernel
after `kernel.rescale(scale)`. -/
structure GPEnv (n : ℕ) where
  y : Fin n → ℝ
  gradMats : List ℝ → List (Matrix (Fin n) (Fin n) ℝ)
  covInvOf : List ℝ → ℝ → Matrix (Fin n) (Fin n) ℝ
  rescaleK : List ℝ → ℝ → List ℝ

/-- The mutable state of one fit call: the model fields touched by the
optimizer (kernel parameters, noise, Cholesky inverse) together with the
loop-local parameter vector and ADAM moment arrays. -/
structure OptState (n : ℕ) where
  kernelParams : List ℝ
  noise : ℝ
  covInv : Matrix (Fin n) (Fin n) ℝ
  params : List ℝ
  meanGrad : List ℝ
  varGrad : List ℝ

/-- Setup of `optimize_parameters`: kernel parameters with every exact
zero replaced by `epsilon`, then the natural logarithm of the noise
appended; moments start at zero.  The kernel itself is not written at
setup, so `kernelParams` keeps the original (unsubstituted) values. -/
noncomputable def optimizeInit {n : ℕ} (kp : List ℝ) (noise : ℝ)
    (covInv : Matrix (Fin n) (Fin n) ℝ) : OptState n :=
  let params := kp.map (fun p => if p = 0 then epsilon else p) ++ [Real.log noise]
  ⟨kp, noise, covInv, params, List.replicate params.length 0, List.replicate params.length 0⟩

/-- Setup of `scaled_optimize_parameters`: as `optimizeInit` but without
the trailing log-noise entry. -/
noncomputable def scaledInit {n : ℕ} (kp : List ℝ) (noise : ℝ)
    (covInv : Matrix (Fin n) (Fin n) ℝ) : OptState n :=
  let params := kp.map (fun p => if p = 0 then epsilon else p)
  ⟨kp, noise, covInv, params, List.replicate params.length 0, List.replicate params.length 0⟩

/-- One iteration of the `optimize_parameters` loop at index `i`:
gradient with the trailing entry corrected for log-space, ADAM update,
parameters pushed into the kernel (which consumes the first `k` entries;
modelled from the spec, the kernel source is not under src/), noise set
to `exp` of the trailing parameter, Cholesky rebuilt.  The second
component is the `had_significant_progress` flag of this iteration. -/
noncomputable def optimizeIter {n : ℕ} (C : GPEnv n) (cf : ℝ) (i : ℕ) (s : OptState n) :
    OptState n × Prop :=
  let grads0 := gradientMarginalLikelihood s.covInv C.y (C.gradMats s.kernelParams) s.noise
  let grads := mulLast grads0 s.noise
  let mean2 := adamMean s.meanGrad grads
  let var2 := adamVar s.varGrad grads
  let deltas := adamDelta i mean2 var2
  let params2 := adamParams s.params deltas
  let kp2 := params2.take s.kernelParams.length
  let noise2 := params2.getLast?.elim s.noise Real.exp
  ⟨⟨kp2, noise2, C.covInvOf kp2 noise2, params2, mean2, var2⟩,
    hadSignificantProgress cf deltas⟩

/-- One iteration of the `scaled_optimize_parameters` loop: scaled
gradient, ADAM update, parameters pushed into the kernel, kernel rescaled
and its parameters re-read, noise multiplied by the scale, Cholesky
rebuilt. -/
noncomputable def scaledIter {n : ℕ} (C : GPEnv n) (cf : ℝ) (i : ℕ) (s : OptState n) :
    OptState n × Prop :=
  let r := scaledGradientMarginalLikelihood s.covInv C.y (C.gradMats s.kernelParams)
  let grads := r.2
  let mean2 := adamMean s.meanGrad grads
  let var2 := adamVar s.varGrad grads
  let deltas := adamDelta i mean2 var2
  let params2 := adamParams s.params deltas
  let kpSet := params2.take s.kernelParams.length
  let kp2 := C.rescaleK kpSet r.1
  let noise2 := s.noise * r.1
  ⟨⟨kp2, noise2, C.covInvOf kp2 noise2, kp2, mean2, var2⟩,
    hadSignificantProgress cf deltas⟩

open Classical in
/-- The `for i in 1..=max_iter { body; if stop { break } }` loop shape
shared by both optimizers.  `body` returns the new state and this
iteration's progress flag; `timeUp i` models
`Utc::now().signed_duration_since(time_start) > max_time` as observed
after iteration `i`.  Returns the final state and the number of times the
body ran; the loop is a total function — it never signals an error. -/
noncomputable def runLoop {σ : Type} (body : ℕ → σ → σ × Prop) (timeUp : ℕ → Prop) :
    ℕ → ℕ → σ → σ × ℕ
  | _, 0, s => (s, 0)
  | i, fuel + 1, s =>
    let r := body i s
    if ¬ r.2 ∨ timeUp i then (r.1, 1)
    else
      let rest := runLoop body timeUp (i + 1) fuel r.1
      (rest.1, rest.2 + 1)

/-- The state reached after `j` further body iterations when no stop
condition fires, starting at iteration index `i`. -/
def iterState {σ : Type} (body : ℕ → σ → σ × Prop) : ℕ → σ → ℕ → σ
  | _, s, 0 => s
  | i, s, j + 1 => iterState body (i + 1) (body i s).1 j

/-- `optimize_parameters(max_iter, convergence_fraction, max_time)`,
started from kernel parameters `kp`, noise and Cholesky inverse `covInv`;
also returns the number of iterations executed. -/
noncomputable def optimizeParameters {n : ℕ} (C : GPEnv n) (maxIter : ℕ) (cf : ℝ)
    (timeUp : ℕ → Prop) (kp : List ℝ) (noise : ℝ) (covInv : Matrix (Fin n) (Fin n) ℝ) :
    OptState n × ℕ :=
  runLoop (optimizeIter C cf) timeUp 1 maxIter (optimizeInit kp noise covInv)

/-- `scaled_optimize_parameters(max_iter, convergence_fraction, max_time)`. -/
noncomputable def scaledOptimizeParameters {n : ℕ} (C : GPEnv n) (maxIter : ℕ) (cf : ℝ)
    (timeUp : ℕ → Prop) (kp : List ℝ) (noise : ℝ) (covInv : Matrix (Fin n) (Fin n) ℝ) :
    OptState n × ℕ :=
  runLoop (scaledIter C cf) timeUp 1 maxIter (scaledInit kp noise covInv)

/-- A concrete collaborator environment over zero training points with
one zero derivative matrix per kernel parameter, used to exercise the
optimizer theorems on closed inputs. -/
noncomputable def trivEnv : GPEnv 0 where
  y := fun _ => 0
  gradMats := fun ps => ps.map (fun _ => 0)
  covInvOf := fun _ _ => 0
  rescaleK := fun ps _ => ps

/-- Run invariant for the unit-noise analysis of `optimize_parameters`:
the moment and parameter lists keep their lengths (for `k` kernel
parameters), the trailing parameter entry is exactly `0` and the model
noise is exactly `1`. -/
def NoiseInv {n : ℕ} (k : ℕ) (s : OptState n) : Prop :=
  s.kernelParams.length = k ∧ s.params.length = k + 1 ∧ s.meanGrad.length = k + 1 ∧
    s.varGrad.length = k + 1 ∧ s.params.getD k 0 = 0 ∧ s.noise = 1

end Friedrich

namespace Friedrich

/-! ## Container lemmas -/

lemma copyTail_some {α : Type} {data : List α} {start : ℕ} {src d2 : List α}
    (h : copyTail data start src = some d2) :
    start ≤ data.length ∧ data.length = start + src.length ∧ d2 = data.take start ++ src := by
  unfold copyTail at h
  split_ifs at h with hc
  refine ⟨hc.1, by omega, ?_⟩
  injection h with h2
  exact h2.symm

lemma copyHead_some {α : Type} {data : List α} {stop : ℕ} {src d : List α}
    (h : copyHead data stop src = some d) :
    stop ≤ data.length ∧ stop = src.length ∧ d = src ++ data.drop stop := by
  unfold copyHead at h
  split_ifs at h with hc
  refine ⟨hc.1, hc.2, ?_⟩
  injection h with h2
  exact h2.symm

lemma mcopyTail_some {α : Type} {data : List (List α)} {ncols start : ℕ} {src d2 : List (List α)}
    (h : mcopyTail data ncols start src = some d2) :
    start ≤ data.length ∧ data.length = start + src.length ∧ d2 = data.take start ++ src := by
  unfold mcopyTail at h
  split_ifs at h with hc
  refine ⟨hc.1, by have := hc.2.1; omega, ?_⟩
  injection h with h2
  exact h2.symm

lemma mcopyHead_some {α : Type} {data : List (List α)} {ncols stop : ℕ} {src d : List (List α)}
    (h : mcopyHead data ncols stop src = some d) :
    stop ≤ data.length ∧ stop = src.length ∧ d = src ++ data.drop stop := by
  unfold mcopyHead at h
  split_ifs at h with hc
  refine ⟨hc.1, hc.2.1, ?_⟩
  injection h with h2
  exact h2.symm

lemma evector_addRows_some {α : Type} {nanv : α} {v : EVector α} {rows : List α} {v' : EVector α}
    (h : EVector.addRows nanv v rows = some v') :
    v'.nrows = v.nrows + rows.length ∧ v'.data.length = v.nrows + rows.length ∧
      v.data.length ≤ v'.data.length ∧
      (v.data.length < v.nrows + rows.length →
        v'.data.length = max (v.nrows + rows.length) (3 * v.data.length / 2)) := by
  simp only [EVector.addRows, Option.bind_eq_some] at h
  obtain ⟨d, hdo, h⟩ := h
  rw [Option.map_eq_some'] at h
  obtain ⟨d2, hct, hv'⟩ := h
  subst hv'
  obtain ⟨hle, hlen, hd2⟩ := copyTail_some hct
  have hd2len : d2.length = v.nrows + rows.length := by
    rw [hd2]; simp [List.length_take]; omega
  split_ifs at hdo with hg
  · obtain ⟨hs, hsl, hd⟩ := copyHead_some hdo
    simp only [List.length_replicate] at hs
    have hdlen : d.length = v.data.length +
        (max (v.nrows + rows.length) (3 * v.data.length / 2) - v.nrows) := by
      rw [hd]; simp
    refine ⟨rfl, hd2len, ?_, fun _ => ?_⟩
    · show v.data.length ≤ d2.length
      omega
    · show d2.length = max (v.nrows + rows.length) (3 * v.data.length / 2)
      omega
  · injection hdo with hdo2
    subst hdo2
    refine ⟨rfl, hd2len, ?_, fun hlt => ?_⟩
    · show v.data.length ≤ d2.length
      omega
    · show d2.length = max (v.nrows + rows.length) (3 * v.data.length / 2)
      omega

lemma ematrix_addRows_some {α : Type} {nanv : α} {m : EMatrix α} {rows : List (List α)}
    {m' : EMatrix α} (h : EMatrix.addRows nanv m rows = some m') :
    m'.nrows = m.nrows + rows.length ∧ m'.data.length = m.nrows + rows.length ∧
      m.data.length ≤ m'.data.length ∧
      (m.data.length < m.nrows + rows.length →
        m'.data.length = max (m.nrows + rows.length) (3 * m.data.length / 2)) := by
  simp only [EMatrix.addRows, Option.bind_eq_some] at h
  obtain ⟨d, hdo, h⟩ := h
  rw [Option.map_eq_some'] at h
  obtain ⟨d2, hct, hm'⟩ := h
  subst hm'
  obtain ⟨hle, hlen, hd2⟩ := mcopyTail_some hct
  have hd2len : d2.length = m.nrows + rows.length := by
    rw [hd2]; simp [List.length_take]; omega
  split_ifs at hdo with hg
  · obtain ⟨hs, hsl, hd⟩ := mcopyHead_some hdo
    simp only [List.length_replicate] at hs
    have hdlen : d.length = m.data.length +
        (max (m.nrows + rows.length) (3 * m.data.length / 2) - m.nrows) := by
      rw [hd]; simp
    refine ⟨rfl, hd2len, ?_, fun _ => ?_⟩
    · show m.data.length ≤ d2.length
      omega
    · show d2.length = max (m.nrows + rows.length) (3 * m.data.length / 2)
      omega
  · injection hdo with hdo2
    subst hdo2
    refine ⟨rfl, hd2len, ?_, fun hlt => ?_⟩
    · show m.data.length ≤ d2.length
      omega
    · show d2.length = max (m.nrows + rows.length) (3 * m.data.length / 2)
      omega

/-! ## Claim theorems: containers -/

/-- Claim C1, settled against the code: the claim asserts every
`add_rows` call with a consistent column count succeeds, but the source
copies the appended block with `data.index_mut((nrows.., ..)).copy_from(&rows)`,
whose target slice spans all rows up to the (possibly over-grown)
capacity; nalgebra's `copy_from` asserts shape equality, so any call that
leaves slack capacity panics.  Witnessed here at the four-row container
with one appended row: growth reallocates to capacity `max(5, 6) = 6` and
the copy of one row into the two remaining rows panics (`none`). -/
theorem addRows_panics_on_slack :
    EVector.addRows (0 : ℤ) (EVector.new [1, 2, 3, 4]) [5] = none
  ∧ EMatrix.addRows (0 : ℤ) (EMatrix.new [[1], [2], [3], [4]] 1) [[5]] = none :=
  ⟨by decide, by decide⟩

/-- Claim C8: across every completed `add_rows` call the capacity
(allocated rows of the backing store) is monotonically non-decreasing,
the logical size stays at most the capacity, and a growing append leaves
the capacity at exactly `max(required_size, 3*capacity/2)` — hence at
least `max(required_size, floor(1.5 * previous_capacity))`. -/
theorem capacity_invariants {α : Type} (nanv : α) :
    (∀ (v : EVector α) (rows : List α) (v' : EVector α),
        EVector.addRows nanv v rows = some v' →
          v.data.length ≤ v'.data.length ∧ v'.nrows ≤ v'.data.length ∧
            (v.data.length < v.nrows + rows.length →
              v'.data.length = max (v.nrows + rows.length) (3 * v.data.length / 2)))
  ∧ (∀ (m : EMatrix α) (rows : List (List α)) (m' : EMatrix α),
        EMatrix.addRows nanv m rows = some m' →
          m.data.length ≤ m'.data.length ∧ m'.nrows ≤ m'.data.length ∧
            (m.data.length < m.nrows + rows.length →
              m'.data.length = max (m.nrows + rows.length) (3 * m.data.length / 2))) := by
  constructor
  · intro v rows v' h
    obtain ⟨h1, h2, h3, h4⟩ := evector_addRows_some h
    exact ⟨h3, by omega, h4⟩
  · intro m rows m' h
    obtain ⟨h1, h2, h3, h4⟩ := ematrix_addRows_some h
    exact ⟨h3, by omega, h4⟩

/-- Witness for C8: a concrete growing append on each container. -/
theorem capacity_invariants_witness :
    ((EVector.new ([1, 2] : List ℤ)).data.length ≤ (EVector.mk ([1, 2, 3, 4] : List ℤ) 4).data.length
      ∧ (EVector.mk ([1, 2, 3, 4] : List ℤ) 4).nrows ≤ (EVector.mk ([1, 2, 3, 4] : List ℤ) 4).data.length
      ∧ ((EVector.new ([1, 2] : List ℤ)).data.length <
            (EVector.new ([1, 2] : List ℤ)).nrows + ([3, 4] : List ℤ).length →
          (EVector.mk ([1, 2, 3, 4] : List ℤ) 4).data.length =
            max ((EVector.new ([1, 2] : List ℤ)).nrows + ([3, 4] : List ℤ).length)
              (3 * (EVector.new ([1, 2] : List ℤ)).data.length / 2)))
  ∧ ((EMatrix.new ([[1], [2]] : List (List ℤ)) 1).data.length ≤
        (EMatrix.mk ([[1], [2], [3], [4]] : List (List ℤ)) 1 4).data.length
      ∧ (EMatrix.mk ([[1], [2], [3], [4]] : List (List ℤ)) 1 4).nrows ≤
        (EMatrix.mk ([[1], [2], [3], [4]] : List (List ℤ)) 1 4).data.length
      ∧ ((EMatrix.new ([[1], [2]] : List (List ℤ)) 1).data.length <
            (EMatrix.new ([[1], [2]] : List (List ℤ)) 1).nrows + ([[3], [4]] : List (List ℤ)).length →
          (EMatrix.mk ([[1], [2], [3], [4]] : List (List ℤ)) 1 4).data.length =
            max ((EMatrix.new ([[1], [2]] : List (List ℤ)) 1).nrows + ([[3], [4]] : List (List ℤ)).length)
              (3 * (EMatrix.new ([[1], [2]] : List (List ℤ)) 1).data.length / 2))) :=
  ⟨(capacity_invariants (0 : ℤ)).1 (EVector.new [1, 2]) [3, 4] ⟨[1, 2, 3, 4], 4⟩ (by decide),
   (capacity_invariants (0 : ℤ)).2 (EMatrix.new [[1], [2]] 1) [[3], [4]] ⟨[[1], [2], [3], [4]], 1, 4⟩
     (by decide)⟩

/-- Claim C9: `EVector::assign` with a wrong-length vector hits the
`assert_eq!` precondition check and fails; with a vector of exactly the
logical size it replaces the logical content in full — the view read
afterwards is exactly the assigned values and the logical size is
unchanged. -/
theorem assign_exact_replacement {α : Type} (v : EVector α) (rows : List α) :
    (rows.length ≠ v.nrows → EVector.assign v rows = none)
  ∧ (rows.length = v.nrows → v.nrows ≤ v.data.length →
      EVector.assign v rows = some ⟨rows ++ v.data.drop rows.length, v.nrows⟩
    ∧ (EVector.mk (rows ++ v.data.drop rows.length) v.nrows).toVslice = rows
    ∧ (EVector.mk (rows ++ v.data.drop rows.length) v.nrows).nrows = v.nrows) := by
  constructor
  · intro hne
    unfold EVector.assign
    rw [if_neg hne]
  · intro heq hinv
    refine ⟨?_, ?_, rfl⟩
    · unfold EVector.assign copyHead
      rw [if_pos heq, if_pos ⟨by omega, rfl⟩]
      rfl
    · show (rows ++ v.data.drop rows.length).take v.nrows = rows
      rw [← heq, List.take_left]

/-- Witness for C9: both branches at concrete inputs. -/
theorem assign_exact_replacement_witness :
    EVector.assign (EVector.new ([10, 20, 30] : List ℤ)) [7, 8] = none
  ∧ EVector.assign (EVector.new ([10, 20, 30] : List ℤ)) [7, 8, 9] =
      some ⟨[7, 8, 9] ++ ([10, 20, 30] : List ℤ).drop ([7, 8, 9] : List ℤ).length,
        (EVector.new ([10, 20, 30] : List ℤ)).nrows⟩ :=
  ⟨(assign_exact_replacement (EVector.new [10, 20, 30]) [7, 8]).1 (by decide),
   ((assign_exact_replacement (EVector.new [10, 20, 30]) [7, 8, 9]).2 (by decide) (by decide)).1⟩

end Friedrich

namespace Friedrich

/-! ## List helper lemmas -/

lemma getD_zipWith (f : ℝ → ℝ → ℝ) :
    ∀ (as bs : List ℝ) (i : ℕ), i < as.length → i < bs.length →
      (List.zipWith f as bs).getD i 0 = f (as.getD i 0) (bs.getD i 0) := by
  intro as
  induction as with
  | nil => intro bs i h1 _; simp at h1
  | cons a as ih =>
    intro bs i h1 h2
    cases bs with
    | nil => simp at h2
    | cons b bs =>
      cases i with
      | zero => rfl
      | succ j =>
        simp only [List.zipWith_cons_cons, List.getD_cons_succ]
        exact ih bs j (by simpa using h1) (by simpa using h2)

lemma getD_replicate (m i : ℕ) : (List.replicate m (0 : ℝ)).getD i 0 = 0 := by
  induction m generalizing i with
  | zero => simp [List.getD]
  | succ k ih =>
    cases i with
    | zero => rfl
    | succ j => simp [List.replicate, List.getD_cons_succ, ih j]

lemma getD_map (f : ℝ → ℝ) (l : List ℝ) (i : ℕ) (h : i < l.length) :
    (l.map f).getD i 0 = f (l.getD i 0) := by
  simp [List.getD, List.getElem?_map, h]

lemma getD_take (l : List ℝ) (k i : ℕ) (h : i < k) :
    (l.take k).getD i 0 = l.getD i 0 := by
  simp [List.getD, List.getElem?_take, h]

lemma getD_append_last (l : List ℝ) (x : ℝ) : (l ++ [x]).getD l.length 0 = x := by
  simp [List.getD_append_right]

lemma length_zipWith_same (f : ℝ → ℝ → ℝ) (as bs : List ℝ) (m : ℕ)
    (ha : as.length = m) (hb : bs.length = m) : (List.zipWith f as bs).length = m := by
  simp [List.length_zipWith, ha, hb]

lemma mulLast_length (c : ℝ) : ∀ l : List ℝ, (mulLast l c).length = l.length := by
  intro l
  induction l with
  | nil => rfl
  | cons x t ih =>
    cases t with
    | nil => rfl
    | cons y t2 => simp [mulLast, ih]

lemma getLast?_eq_getD : ∀ l : List ℝ, l ≠ [] → l.getLast? = some (l.getD (l.length - 1) 0) := by
  intro l
  induction l with
  | nil => intro h; exact absurd rfl h
  | cons x t ih =>
    intro _
    cases t with
    | nil => rfl
    | cons y t2 =>
      rw [List.getLast?_cons_cons, ih (by simp)]
      simp [List.getD_cons_succ]

lemma mulLast_eq (c : ℝ) : ∀ (l : List ℝ) (x : ℝ), l.getLast? = some x →
    mulLast l c = l.dropLast ++ [x * c] := by
  intro l
  induction l with
  | nil => intro x h; simp at h
  | cons a t ih =>
    intro x h
    cases t with
    | nil =>
      simp only [List.getLast?_singleton, Option.some.injEq] at h
      subst h
      rfl
    | cons b t2 =>
      rw [List.getLast?_cons_cons] at h
      show a :: mulLast (b :: t2) c = (a :: b :: t2).dropLast ++ [x * c]
      rw [ih x h]
      rfl

lemma foldl_or_iff (cf : ℝ) : ∀ (l : List ℝ) (b : Prop),
    (l.foldl (fun acc d => acc ∨ |d| > cf) b ↔ b ∨ ∃ d ∈ l, |d| > cf) := by
  intro l
  induction l with
  | nil => intro b; simp
  | cons x t ih =>
    intro b
    simp only [List.foldl_cons]
    rw [ih]
    simp only [List.mem_cons]
    constructor
    · rintro ((hb | hx) | ⟨d, hd, habs⟩)
      · exact Or.inl hb
      · exact Or.inr ⟨x, Or.inl rfl, hx⟩
      · exact Or.inr ⟨d, Or.inr hd, habs⟩
    · rintro (hb | ⟨d, rfl | hd, habs⟩)
      · exact Or.inl (Or.inl hb)
      · exact Or.inl (Or.inr habs)
      · exact Or.inr ⟨d, hd, habs⟩

lemma gradientMarginalLikelihood_length {n : ℕ} (covInv : Matrix (Fin n) (Fin n) ℝ)
    (y : Fin n → ℝ) (mats : List (Matrix (Fin n) (Fin n) ℝ)) (noise : ℝ) :
    (gradientMarginalLikelihood covInv y mats noise).length = mats.length + 1 := by
  simp [gradientMarginalLikelihood]

/-! ## Gradient form lemmas -/

lemma dataFitSum_eq {n : ℕ} (Dp : Matrix (Fin n) (Fin n) ℝ) (alpha : Fin n → ℝ) :
    dataFitSum Dp alpha = Matrix.dotProduct alpha (Dp.mulVec alpha) := by
  unfold dataFitSum
  simp only [Matrix.mulVec, Matrix.dotProduct, Finset.sum_mul, Finset.mul_sum]
  rw [Finset.sum_comm]
  apply Finset.sum_congr rfl
  intro i _
  apply Finset.sum_congr rfl
  intro j _
  ring

lemma complexitySum_eq {n : ℕ} (covInv Dp : Matrix (Fin n) (Fin n) ℝ) :
    complexitySum covInv Dp = Matrix.trace (covInv * Dp) := by
  unfold complexitySum Matrix.trace
  simp [Matrix.diag, Matrix.mul_apply]

lemma sum_diag_eq_trace {n : ℕ} (A : Matrix (Fin n) (Fin n) ℝ) :
    (∑ i, A i i) = Matrix.trace A := by
  simp [Matrix.trace, Matrix.diag]

lemma sum_mul_self_eq_dot {n : ℕ} (alpha : Fin n → ℝ) :
    (∑ i, alpha i * alpha i) = Matrix.dotProduct alpha alpha := rfl

/-! ## Loop lemmas -/

lemma runLoop_count_le {σ : Type} (body : ℕ → σ → σ × Prop) (timeUp : ℕ → Prop) :
    ∀ (fuel i : ℕ) (s : σ), (runLoop body timeUp i fuel s).2 ≤ fuel := by
  intro fuel
  induction fuel with
  | zero => intro i s; simp [runLoop]
  | succ m ih =>
    intro i s
    simp only [runLoop]
    split
    · simp
    · simpa using Nat.succ_le_succ (ih (i + 1) ((body i s).1))

lemma runLoop_stop {σ : Type} (body : ℕ → σ → σ × Prop) (timeUp : ℕ → Prop) :
    ∀ (fuel i : ℕ) (s : σ) (j : ℕ), j < fuel →
      (¬ (body (i + j) (iterState body i s j)).2 ∨ timeUp (i + j)) →
      (runLoop body timeUp i fuel s).2 ≤ j + 1 := by
  intro fuel
  induction fuel with
  | zero => intro i s j hj _; exact absurd hj (by omega)
  | succ m ih =>
    intro i s j hj hstop
    simp only [runLoop]
    by_cases hc : ¬ (body i s).2 ∨ timeUp i
    · rw [if_pos hc]
      omega
    · rw [if_neg hc]
      cases j with
      | zero =>
        simp only [iterState, Nat.add_zero] at hstop
        exact absurd hstop hc
      | succ jj =>
        have harith : i + (jj + 1) = (i + 1) + jj := by omega
        have hstop2 : ¬ (body ((i + 1) + jj) (iterState body (i + 1) ((body i s).1) jj)).2 ∨
            timeUp ((i + 1) + jj) := by
          rw [← harith]
          simpa [iterState] using hstop
        have hrec := ih (i + 1) ((body i s).1) jj (by omega) hstop2
        simpa using Nat.succ_le_succ hrec

lemma runLoop_preserve {σ : Type} (body : ℕ → σ → σ × Prop) (timeUp : ℕ → Prop) (P : σ → Prop)
    (hP : ∀ i s, P s → P (body i s).1) :
    ∀ (fuel i : ℕ) (s : σ), P s → P (runLoop body timeUp i fuel s).1 := by
  intro fuel
  induction fuel with
  | zero => intro i s hs; simpa [runLoop] using hs
  | succ m ih =>
    intro i s hs
    simp only [runLoop]
    split
    · exact hP i s hs
    · exact ih (i + 1) _ (hP i s hs)

end Friedrich

namespace Friedrich

/-! ## Claim theorems: gradients and ADAM update -/

/-- Claim C2: in every iteration `i ≥ 1` of either optimizer loop the
moments are updated as `mean[p] = 0.9*mean[p] + 0.1*grad[p]` and
`var[p] = 0.999*var[p] + 0.001*grad[p]^2`, bias-corrected by `1 - 0.9^i`
and `1 - 0.999^i`, the step is
`delta = 0.1 * mean_hat / (sqrt(var_hat) + 1e-8)`, the iteration is
marked as having significant progress iff some `|delta|` exceeds the
convergence fraction, and the parameter update is multiplicative,
`parameter[p] *= (1 + delta)`; both `optimizeIter` and `scaledIter`
perform exactly this update. -/
theorem adam_update_formulas {n : ℕ} (C : GPEnv n) (i : ℕ) (cf : ℝ)
    (mean varGrad params grads : List ℝ) (s : OptState n) :
    adamMean mean grads = List.zipWith (fun m g => 0.9 * m + 0.1 * g) mean grads
  ∧ adamVar varGrad grads = List.zipWith (fun v g => 0.999 * v + 0.001 * g ^ 2) varGrad grads
  ∧ adamDelta i mean varGrad = List.zipWith
      (fun m v => 0.1 * (m / (1 - 0.9 ^ i)) / (Real.sqrt (v / (1 - 0.999 ^ i)) + 1e-8))
      mean varGrad
  ∧ (hadSignificantProgress cf (adamDelta i mean varGrad) ↔
      ∃ d ∈ adamDelta i mean varGrad, |d| > cf)
  ∧ adamParams params (adamDelta i mean varGrad) =
      List.zipWith (fun p d => p * (1 + d)) params (adamDelta i mean varGrad)
  ∧ (optimizeIter C cf i s).1.params =
      adamParams s.params (adamDelta i
        (adamMean s.meanGrad (mulLast (gradientMarginalLikelihood s.covInv C.y
          (C.gradMats s.kernelParams) s.noise) s.noise))
        (adamVar s.varGrad (mulLast (gradientMarginalLikelihood s.covInv C.y
          (C.gradMats s.kernelParams) s.noise) s.noise)))
  ∧ (optimizeIter C cf i s).2 =
      hadSignificantProgress cf (adamDelta i
        (adamMean s.meanGrad (mulLast (gradientMarginalLikelihood s.covInv C.y
          (C.gradMats s.kernelParams) s.noise) s.noise))
        (adamVar s.varGrad (mulLast (gradientMarginalLikelihood s.covInv C.y
          (C.gradMats s.kernelParams) s.noise) s.noise)))
  ∧ (scaledIter C cf i s).1.meanGrad =
      adamMean s.meanGrad (scaledGradientMarginalLikelihood s.covInv C.y
        (C.gradMats s.kernelParams)).2
  ∧ (scaledIter C cf i s).2 =
      hadSignificantProgress cf (adamDelta i
        (adamMean s.meanGrad (scaledGradientMarginalLikelihood s.covInv C.y
          (C.gradMats s.kernelParams)).2)
        (adamVar s.varGrad (scaledGradientMarginalLikelihood s.covInv C.y
          (C.gradMats s.kernelParams)).2)) := by
  refine ⟨?_, ?_, ?_, ?_, rfl, rfl, rfl, rfl, rfl⟩
  · unfold adamMean
    have h1 : (fun m g : ℝ => beta1 * m + (1 - beta1) * g) =
        (fun m g : ℝ => 0.9 * m + 0.1 * g) := by
      funext m g
      norm_num [beta1]
    rw [h1]
  · unfold adamVar
    have h2 : (fun v g : ℝ => beta2 * v + (1 - beta2) * g ^ 2) =
        (fun v g : ℝ => 0.999 * v + 0.001 * g ^ 2) := by
      funext v g
      norm_num [beta2]
    rw [h2]
  · unfold adamDelta
    have h3 : (fun m v : ℝ =>
        learningRate * (m / (1 - beta1 ^ i)) / (Real.sqrt (v / (1 - beta2 ^ i)) + epsilon)) =
        (fun m v : ℝ =>
          0.1 * (m / (1 - 0.9 ^ i)) / (Real.sqrt (v / (1 - 0.999 ^ i)) + 1e-8)) := by
      funext m v
      norm_num [learningRate, beta1, beta2, epsilon]
    rw [h3]
  · unfold hadSignificantProgress
    rw [foldl_or_iff]
    simp

/-- Claim C3: `gradient_marginal_likelihood` returns, per kernel
parameter, `(alphaᵗ·Dp·alpha − trace(K⁻¹·Dp)) / 2` — the per-column
dot-product sums of the code equal these bilinear and trace forms without
materializing `K⁻¹·Dp` — followed by exactly one trailing noise entry
`noise * (alphaᵗ·alpha − trace(K⁻¹))`, with `alpha = K⁻¹·y`. -/
theorem gradient_marginal_likelihood_spec {n : ℕ} (covInv : Matrix (Fin n) (Fin n) ℝ)
    (y : Fin n → ℝ) (mats : List (Matrix (Fin n) (Fin n) ℝ)) (noise : ℝ) :
    gradientMarginalLikelihood covInv y mats noise =
      mats.map (fun Dp =>
        (Matrix.dotProduct (covInv.mulVec y) (Dp.mulVec (covInv.mulVec y)) -
          Matrix.trace (covInv * Dp)) / 2)
      ++ [noise * (Matrix.dotProduct (covInv.mulVec y) (covInv.mulVec y) -
          Matrix.trace covInv)] := by
  simp only [gradientMarginalLikelihood]
  have hf : (fun Dp : Matrix (Fin n) (Fin n) ℝ =>
      (dataFitSum Dp (covInv.mulVec y) - complexitySum covInv Dp) / 2) =
      (fun Dp => (Matrix.dotProduct (covInv.mulVec y) (Dp.mulVec (covInv.mulVec y)) -
        Matrix.trace (covInv * Dp)) / 2) := by
    funext Dp
    rw [dataFitSum_eq, complexitySum_eq]
  rw [hf, sum_mul_self_eq_dot, sum_diag_eq_trace]

/-- Claim C4: `scaled_gradient_marginal_likelihood` returns the pair of
`scale = yᵗ·K⁻¹·y / n` and the per-kernel-parameter gradients
`(alphaᵗ·Dp·alpha/scale − trace(K⁻¹·Dp)) / 2` with no trailing noise
entry; and each `scaled_optimize_parameters` iteration multiplies the
model noise by exactly this returned scale. -/
theorem scaled_gradient_spec {n : ℕ} (C : GPEnv n) (covInv : Matrix (Fin n) (Fin n) ℝ)
    (y : Fin n → ℝ) (mats : List (Matrix (Fin n) (Fin n) ℝ)) (cf : ℝ) (i : ℕ)
    (s : OptState n) :
    (scaledGradientMarginalLikelihood covInv y mats).1 =
      Matrix.dotProduct y (covInv.mulVec y) / (n : ℝ)
  ∧ (scaledGradientMarginalLikelihood covInv y mats).2 =
      mats.map (fun Dp =>
        (Matrix.dotProduct (covInv.mulVec y) (Dp.mulVec (covInv.mulVec y)) /
            (scaledGradientMarginalLikelihood covInv y mats).1 -
          Matrix.trace (covInv * Dp)) / 2)
  ∧ ((scaledGradientMarginalLikelihood covInv y mats).2).length = mats.length
  ∧ (scaledIter C cf i s).1.noise =
      s.noise * (scaledGradientMarginalLikelihood s.covInv C.y (C.gradMats s.kernelParams)).1 := by
  refine ⟨rfl, ?_, by simp [scaledGradientMarginalLikelihood], rfl⟩
  simp only [scaledGradientMarginalLikelihood]
  have hf : (fun Dp : Matrix (Fin n) (Fin n) ℝ =>
      (dataFitSum Dp (covInv.mulVec y) / ((∑ j, y j * covInv.mulVec y j) / (n : ℝ)) -
        complexitySum covInv Dp) / 2) =
      (fun Dp => (Matrix.dotProduct (covInv.mulVec y) (Dp.mulVec (covInv.mulVec y)) /
          ((∑ j, y j * covInv.mulVec y j) / (n : ℝ)) -
        Matrix.trace (covInv * Dp)) / 2) := by
    funext Dp
    rw [dataFitSum_eq, complexitySum_eq]
  rw [hf]

end Friedrich

namespace Friedrich

/-! ## ADAM component length lemmas -/

lemma adamMean_length (mean grads : List ℝ) :
    (adamMean mean grads).length = min mean.length grads.length := by
  simp [adamMean]

lemma adamVar_length (varGrad grads : List ℝ) :
    (adamVar varGrad grads).length = min varGrad.length grads.length := by
  simp [adamVar]

lemma adamDelta_length (i : ℕ) (mean varGrad : List ℝ) :
    (adamDelta i mean varGrad).length = min mean.length varGrad.length := by
  simp [adamDelta]

lemma adamParams_length (params deltas : List ℝ) :
    (adamParams params deltas).length = min params.length deltas.length := by
  simp [adamParams]

/-! ## First-iteration step bound -/

lemma epsilon_mul_one_add_delta_ne_zero (g : ℝ) :
    epsilon * (1 + learningRate * ((beta1 * 0 + (1 - beta1) * g) / (1 - beta1 ^ 1)) /
      (Real.sqrt ((beta2 * 0 + (1 - beta2) * g ^ 2) / (1 - beta2 ^ 1)) + epsilon)) ≠ 0 := by
  have hb1 : (1 : ℝ) - beta1 ≠ 0 := by norm_num [beta1]
  have hb2 : (1 : ℝ) - beta2 ≠ 0 := by norm_num [beta2]
  have h1 : (beta1 * 0 + (1 - beta1) * g) / (1 - beta1 ^ 1) = g := by
    rw [pow_one, mul_zero, zero_add, mul_comm, mul_div_assoc, div_self hb1, mul_one]
  have h2 : (beta2 * 0 + (1 - beta2) * g ^ 2) / (1 - beta2 ^ 1) = g ^ 2 := by
    rw [pow_one, mul_zero, zero_add, mul_comm, mul_div_assoc, div_self hb2, mul_one]
  rw [h1, h2, Real.sqrt_sq_eq_abs]
  have heps : (0 : ℝ) < epsilon := by norm_num [epsilon]
  have hd : (0 : ℝ) < |g| + epsilon := by
    have := abs_nonneg g
    linarith
  have hlr : (0 : ℝ) < learningRate := by norm_num [learningRate]
  have habs : |learningRate * g / (|g| + epsilon)| < 1 := by
    rw [abs_div, abs_of_pos hd, abs_mul, abs_of_pos hlr, div_lt_one hd]
    have hg := abs_nonneg g
    simp only [learningRate, epsilon] at *
    nlinarith
  have h1d : 0 < 1 + learningRate * g / (|g| + epsilon) := by
    have := (abs_lt.mp habs).1
    linarith
  exact ne_of_gt (mul_pos heps h1d)

lemma first_iter_param_ne_zero (params0 mean0 var0 grads : List ℝ) (p : ℕ)
    (hp1 : p < params0.length) (hp2 : p < mean0.length) (hp3 : p < var0.length)
    (hp4 : p < grads.length)
    (hm : mean0.getD p 0 = 0) (hv : var0.getD p 0 = 0)
    (hpz : params0.getD p 0 = epsilon) :
    (adamParams params0 (adamDelta 1 (adamMean mean0 grads) (adamVar var0 grads))).getD p 0 ≠ 0 := by
  have hmlen : p < (adamMean mean0 grads).length := by
    rw [adamMean_length]
    omega
  have hvlen : p < (adamVar var0 grads).length := by
    rw [adamVar_length]
    omega
  have hdlen : p < (adamDelta 1 (adamMean mean0 grads) (adamVar var0 grads)).length := by
    rw [adamDelta_length]
    omega
  have hmean : (adamMean mean0 grads).getD p 0 = beta1 * 0 + (1 - beta1) * grads.getD p 0 := by
    unfold adamMean
    rw [getD_zipWith _ _ _ _ hp2 hp4, hm]
  have hvar : (adamVar var0 grads).getD p 0 = beta2 * 0 + (1 - beta2) * grads.getD p 0 ^ 2 := by
    unfold adamVar
    rw [getD_zipWith _ _ _ _ hp3 hp4, hv]
  have hdelta : (adamDelta 1 (adamMean mean0 grads) (adamVar var0 grads)).getD p 0 =
      learningRate * ((beta1 * 0 + (1 - beta1) * grads.getD p 0) / (1 - beta1 ^ 1)) /
        (Real.sqrt ((beta2 * 0 + (1 - beta2) * grads.getD p 0 ^ 2) / (1 - beta2 ^ 1)) +
          epsilon) := by
    unfold adamDelta
    rw [getD_zipWith _ _ _ _ hmlen hvlen, hmean, hvar]
  have hparam : (adamParams params0
      (adamDelta 1 (adamMean mean0 grads) (adamVar var0 grads))).getD p 0 =
      params0.getD p 0 *
        (1 + (adamDelta 1 (adamMean mean0 grads) (adamVar var0 grads)).getD p 0) := by
    unfold adamParams
    rw [getD_zipWith _ _ _ _ hp1 hdlen]
  rw [hparam, hpz, hdelta]
  exact epsilon_mul_one_add_delta_ne_zero (grads.getD p 0)

/-! ## Claim theorems: optimizer loops -/

/-- Claim C5: the plain optimizer handles noise in log-space end to end —
setup appends `ln(noise)` as the final parameter entry (after the
zero-to-epsilon substitution of the kernel parameters), each iteration
multiplies the trailing gradient entry by the current noise (chain-rule
correction) before the ADAM update, and after each iteration the model
noise equals `exp` of the trailing parameter entry. -/
theorem noise_log_space {n : ℕ} (C : GPEnv n) :
    (∀ (kp : List ℝ) (noise : ℝ) (covInv : Matrix (Fin n) (Fin n) ℝ),
      (optimizeInit kp noise covInv : OptState n).params =
        kp.map (fun p => if p = 0 then epsilon else p) ++ [Real.log noise])
  ∧ (∀ (l : List ℝ) (c x : ℝ), l.getLast? = some x → mulLast l c = l.dropLast ++ [x * c])
  ∧ (∀ (cf : ℝ) (i : ℕ) (s : OptState n) (L : ℝ),
      (optimizeIter C cf i s).1.params.getLast? = some L →
      (optimizeIter C cf i s).1.noise = Real.exp L) := by
  refine ⟨fun kp noise covInv => rfl, fun l c x h => mulLast_eq c l x h, ?_⟩
  intro cf i s L hL
  simp only [optimizeIter] at hL ⊢
  rw [hL]
  rfl

/-- Witness for C5: one iteration on a concrete one-parameter state. -/
theorem noise_log_space_witness :
    (optimizeIter trivEnv 0 1 ⟨[], 1, 0, [0], [0], [0]⟩).1.noise = Real.exp 0 :=
  (noise_log_space trivEnv).2.2 0 1 ⟨[], 1, 0, [0], [0], [0]⟩ 0
    (by simp [optimizeIter, gradientMarginalLikelihood, trivEnv, mulLast, adamMean,
      adamVar, adamDelta, adamParams])

/-- Claim C6: at setup both optimizers replace every exactly-zero kernel
parameter by `epsilon = 1e-8`, and a kernel parameter that starts at
exactly `0` is nonzero after the first `optimize_parameters` iteration:
the first-iteration step satisfies `|delta| < 1`, so the multiplicative
update `epsilon * (1 + delta)` cannot return to zero. -/
theorem zero_param_unstuck {n : ℕ} (C : GPEnv n) (cf : ℝ) (kp : List ℝ) (noise : ℝ)
    (covInv : Matrix (Fin n) (Fin n) ℝ) (p : ℕ) (hp : p < kp.length)
    (hz : kp.getD p 0 = 0) (hmats : (C.gradMats kp).length = kp.length) :
    (optimizeInit kp noise covInv : OptState n).params =
      kp.map (fun q => if q = 0 then epsilon else q) ++ [Real.log noise]
  ∧ (scaledInit kp noise covInv : OptState n).params =
      kp.map (fun q => if q = 0 then epsilon else q)
  ∧ ((optimizeIter C cf 1 (optimizeInit kp noise covInv)).1.kernelParams).getD p 0 ≠ 0 := by
  refine ⟨rfl, rfl, ?_⟩
  simp only [optimizeIter, optimizeInit]
  rw [getD_take _ _ _ hp]
  apply first_iter_param_ne_zero
  · simp
    omega
  · simp
    omega
  · simp
    omega
  · rw [mulLast_length, gradientMarginalLikelihood_length, hmats]
    omega
  · exact getD_replicate _ _
  · exact getD_replicate _ _
  · rw [List.getD_append _ _ _ _ (by simpa using hp), getD_map _ _ _ hp, hz]
    simp

/-- Witness for C6: a single zero kernel parameter on the trivial
environment. -/
theorem zero_param_unstuck_witness :
    ((optimizeIter trivEnv 0 1 (optimizeInit [0] 1 0)).1.kernelParams).getD 0 0 ≠ 0 :=
  (zero_param_unstuck trivEnv 0 [0] 1 0 0 (by simp) (by simp) (by simp [trivEnv])).2.2

/-- Claim C7: both optimizer loops run their body at most `max_iter`
times, unconditionally — on every run, with every environment,
convergence fraction and timeout; and if any iteration `1 + j` runs
without significant progress — or with the wall-clock timeout observed —
the iteration after it never executes, separately for each loop.  The
loop is a total function, so termination is never signalled via an
error. -/
theorem optimizer_loops_terminate {n : ℕ} (C : GPEnv n) (maxIter : ℕ) (cf : ℝ)
    (timeUp : ℕ → Prop) (kp : List ℝ) (noise : ℝ) (covInv : Matrix (Fin n) (Fin n) ℝ) :
    (optimizeParameters C maxIter cf timeUp kp noise covInv).2 ≤ maxIter
  ∧ (scaledOptimizeParameters C maxIter cf timeUp kp noise covInv).2 ≤ maxIter
  ∧ (∀ j : ℕ, j < maxIter →
      (¬ (optimizeIter C cf (1 + j)
          (iterState (optimizeIter C cf) 1 (optimizeInit kp noise covInv) j)).2 ∨
        timeUp (1 + j)) →
      (optimizeParameters C maxIter cf timeUp kp noise covInv).2 ≤ j + 1)
  ∧ (∀ j : ℕ, j < maxIter →
      (¬ (scaledIter C cf (1 + j)
          (iterState (scaledIter C cf) 1 (scaledInit kp noise covInv) j)).2 ∨
        timeUp (1 + j)) →
      (scaledOptimizeParameters C maxIter cf timeUp kp noise covInv).2 ≤ j + 1) := by
  refine ⟨runLoop_count_le _ _ _ _ _, runLoop_count_le _ _ _ _ _, ?_, ?_⟩
  · intro j hj hstopO
    exact runLoop_stop _ _ maxIter 1 _ j hj hstopO
  · intro j hj hstopS
    exact runLoop_stop _ _ maxIter 1 _ j hj hstopS

/-- Witness for C7: the unconditional `max_iter` bounds at `max_iter = 1`,
and the early-stop parts at `j = 0` with the timeout already expired
after the first iteration. -/
theorem optimizer_loops_terminate_witness :
    (optimizeParameters trivEnv 1 0 (fun _ => True) [] 1 0).2 ≤ 1
  ∧ (scaledOptimizeParameters trivEnv 1 0 (fun _ => True) [] 1 0).2 ≤ 1
  ∧ (optimizeParameters trivEnv 1 0 (fun _ => True) [] 1 0).2 ≤ 0 + 1
  ∧ (scaledOptimizeParameters trivEnv 1 0 (fun _ => True) [] 1 0).2 ≤ 0 + 1 :=
  ⟨(optimizer_loops_terminate trivEnv 1 0 (fun _ => True) [] 1 0).1,
   (optimizer_loops_terminate trivEnv 1 0 (fun _ => True) [] 1 0).2.1,
   (optimizer_loops_terminate trivEnv 1 0 (fun _ => True) [] 1 0).2.2.1 0 (by omega)
     (Or.inr trivial),
   (optimizer_loops_terminate trivEnv 1 0 (fun _ => True) [] 1 0).2.2.2 0 (by omega)
     (Or.inr trivial)⟩

/-! ## Unit-noise run (claim C10) -/

lemma optimizeIter_preserves_noiseInv {n : ℕ} (C : GPEnv n)
    (henv : ∀ ps : List ℝ, (C.gradMats ps).length = ps.length) (cf : ℝ) (k : ℕ) :
    ∀ (i : ℕ) (s : OptState n), NoiseInv k s → NoiseInv k (optimizeIter C cf i s).1 := by
  intro i s hs
  obtain ⟨hk, hplen, hmlen, hvlen, hlast, hnoise⟩ := hs
  have hg0len : (gradientMarginalLikelihood s.covInv C.y
      (C.gradMats s.kernelParams) s.noise).length = k + 1 := by
    rw [gradientMarginalLikelihood_length, henv, hk]
  have hglen : (mulLast (gradientMarginalLikelihood s.covInv C.y
      (C.gradMats s.kernelParams) s.noise) s.noise).length = k + 1 := by
    rw [mulLast_length, hg0len]
  set grads := mulLast (gradientMarginalLikelihood s.covInv C.y
      (C.gradMats s.kernelParams) s.noise) s.noise with hgdef
  have hm2 : (adamMean s.meanGrad grads).length = k + 1 := by
    rw [adamMean_length, hmlen, hglen]
    omega
  have hv2 : (adamVar s.varGrad grads).length = k + 1 := by
    rw [adamVar_length, hvlen, hglen]
    omega
  have hd2 : (adamDelta i (adamMean s.meanGrad grads) (adamVar s.varGrad grads)).length =
      k + 1 := by
    rw [adamDelta_length, hm2, hv2]
    omega
  have hp2 : (adamParams s.params
      (adamDelta i (adamMean s.meanGrad grads) (adamVar s.varGrad grads))).length = k + 1 := by
    rw [adamParams_length, hplen, hd2]
    omega
  have hlast2 : (adamParams s.params
      (adamDelta i (adamMean s.meanGrad grads) (adamVar s.varGrad grads))).getD k 0 = 0 := by
    unfold adamParams
    rw [getD_zipWith _ _ _ _ (by omega) (by omega), hlast, zero_mul]
  have hgl : (adamParams s.params
      (adamDelta i (adamMean s.meanGrad grads) (adamVar s.varGrad grads))).getLast? =
      some 0 := by
    rw [getLast?_eq_getD _ (by intro hcon; rw [hcon] at hp2; simp at hp2), hp2]
    simpa using hlast2
  refine ⟨?_, ?_, ?_, ?_, ?_, ?_⟩
  · show ((adamParams s.params _).take s.kernelParams.length).length = k
    rw [List.length_take, hk, hp2]
    omega
  · show (adamParams s.params _).length = k + 1
    exact hp2
  · show (adamMean s.meanGrad grads).length = k + 1
    exact hm2
  · show (adamVar s.varGrad grads).length = k + 1
    exact hv2
  · show (adamParams s.params _).getD k 0 = 0
    exact hlast2
  · show ((adamParams s.params
        (adamDelta i (adamMean s.meanGrad grads) (adamVar s.varGrad grads))).getLast?).elim
        s.noise Real.exp = 1
    rw [hgl]
    simp [Option.elim, Real.exp_zero]

/-- Claim C10: with model noise exactly `1`, the trailing log-noise
parameter starts at `ln 1 = 0` — the zero-to-epsilon substitution covers
only the kernel parameters, before the log-noise entry is appended — the
multiplicative update keeps it at exactly `0` in every iteration (every
real step `delta` included), and the model noise stays exactly
`exp 0 = 1` after every iteration of the fit. -/
theorem unit_noise_fixed {n : ℕ} (C : GPEnv n)
    (henv : ∀ ps : List ℝ, (C.gradMats ps).length = ps.length)
    (maxIter : ℕ) (cf : ℝ) (timeUp : ℕ → Prop) (kp : List ℝ)
    (covInv : Matrix (Fin n) (Fin n) ℝ) :
    (optimizeInit kp 1 covInv : OptState n).params.getLast? = some 0
  ∧ (optimizeParameters C maxIter cf timeUp kp 1 covInv).1.noise = 1 := by
  constructor
  · show (kp.map (fun p => if p = 0 then epsilon else p) ++ [Real.log 1]).getLast? = some 0
    rw [List.getLast?_concat, Real.log_one]
  · have hinv : NoiseInv kp.length (optimizeInit kp 1 covInv : OptState n) := by
      refine ⟨rfl, by simp [optimizeInit], by simp [optimizeInit], by simp [optimizeInit],
        ?_, rfl⟩
      show (kp.map (fun p => if p = 0 then epsilon else p) ++ [Real.log 1]).getD kp.length 0 = 0
      have hlen : (kp.map (fun p => if p = 0 then epsilon else p)).length = kp.length := by
        simp
      rw [← hlen, getD_append_last, Real.log_one]
    have hrun := runLoop_preserve (optimizeIter C cf) timeUp (NoiseInv kp.length)
      (optimizeIter_preserves_noiseInv C henv cf kp.length) maxIter 1
      (optimizeInit kp 1 covInv) hinv
    exact hrun.2.2.2.2.2

/-- Witness for C10: three iterations on the trivial environment leave
the noise at exactly one. -/
theorem unit_noise_fixed_witness :
    (optimizeParameters trivEnv 3 0 (fun _ => False) [] 1 0).1.noise = 1 :=
  (unit_noise_fixed trivEnv (fun ps => by simp [trivEnv]) 3 0 (fun _ => False) [] 0).2

end Friedrich
